import Mathlib

/-!
Verification of the AURA temporal archive resolution and lazy-reference layer.

This development embeds the core of the repository (volume.py, core.py,
config.py) into Lean: decimal digit parsing and rendering for the file-name
grammar, the proleptic Gregorian ordinal arithmetic used by Python datetime
objects (modelled from the spec, since the standard library is not part of
the repository sources), the LazyVolume and VolumeList data model with the
nearest and at operations, and the get_vol dispatcher with its midnight
heuristic, day-range loop and timezone normalization.

Conventions: Python datetime values are embedded as their civil fields
(year, month, day, hour, minute, second, microsecond); timedelta
subtraction and total_seconds are modelled exactly over the rationals
(no floating-point rounding); file-system state is a function from
container paths to the optional list of entry names of the container;
Python exceptions become an explicit error type carrying the data that
the corresponding message interpolates.
-/

/-! ### Decimal digits

Utilities for the digit groups of the volume-name grammar
(config.py VOLUME_PATTERN) and for the zero-padded rendering used by
path construction (config.py zip_path) and by timestamp formatting. -/

/-- Numeric value of an ASCII digit character. -/
def digitVal (c : Char) : ℕ := c.toNat - 48

/-- ASCII digit character of a value below ten. -/
def digitChar (n : ℕ) : Char := Char.ofNat (48 + n)

/-- ASCII digit test, the model of the digit class of the volume-name
grammar. The Python pattern also accepts non-ASCII Unicode digits; the
embedding restricts names to the ASCII alphabet. -/
def isDig (c : Char) : Bool := decide (48 ≤ c.toNat ∧ c.toNat ≤ 57)

/-- Value of a big-endian decimal digit string, the model of Python int()
on a digit-only string. -/
def digitsToNat (l : List Char) : ℕ := l.foldl (fun acc c => 10 * acc + digitVal c) 0

/-- Zero-padded fixed-width decimal rendering, the model of the 04d and
02d format specifiers. -/
def padDigits : ℕ → ℕ → List Char
  | 0, _ => []
  | w + 1, n => padDigits w (n / 10) ++ [digitChar (n % 10)]

/-- Fuel-indexed helper for unpadded decimal rendering; the fuel is an
upper bound on the number of digits, shown irrelevant below. -/
def natDigitsAux : ℕ → ℕ → List Char
  | 0, _ => []
  | fuel + 1, n => if n < 10 then [digitChar n] else natDigitsAux fuel (n / 10) ++ [digitChar (n % 10)]

/-- Unpadded decimal rendering of a natural number, the model of Python
str() on an int. -/
def natDigits (n : ℕ) : List Char := natDigitsAux (n + 1) n

theorem digitVal_lt_ten {c : Char} (h : isDig c = true) : digitVal c < 10 := by
  have h' := of_decide_eq_true h
  unfold digitVal
  omega

theorem digitChar_digitVal {c : Char} (h : isDig c = true) : digitChar (digitVal c) = c := by
  have h' := of_decide_eq_true h
  unfold digitChar digitVal
  have e : 48 + (c.toNat - 48) = c.toNat := by omega
  rw [e, Char.ofNat_toNat]

theorem toNat_of_ne_zeroChar {c : Char} (h : c ≠ '0') (hd : isDig c = true) : 49 ≤ c.toNat := by
  have h' := of_decide_eq_true hd
  rcases Nat.lt_or_ge c.toNat 49 with hlt | hge
  · exfalso
    apply h
    have e : c.toNat = 48 := by omega
    calc c = Char.ofNat c.toNat := (Char.ofNat_toNat c).symm
    _ = '0' := by rw [e]
  · exact hge

theorem digitsToNat_append (l : List Char) (c : Char) :
    digitsToNat (l ++ [c]) = 10 * digitsToNat l + digitVal c := by
  unfold digitsToNat
  rw [List.foldl_append]
  rfl

theorem digitsToNat_foldl_acc (l : List Char) : ∀ a : ℕ,
    l.foldl (fun acc c => 10 * acc + digitVal c) a = a * 10 ^ l.length + digitsToNat l := by
  induction l with
  | nil => intro a; simp [digitsToNat]
  | cons c cs ih =>
    intro a
    have h0 : digitsToNat (c :: cs) = digitVal c * 10 ^ cs.length + digitsToNat cs := by
      show (c :: cs).foldl (fun acc c => 10 * acc + digitVal c) 0 = _
      simp only [List.foldl_cons]
      rw [ih]
      ring_nf
    simp only [List.foldl_cons]
    rw [ih, h0, List.length_cons]
    ring

theorem digitsToNat_cons (c : Char) (l : List Char) :
    digitsToNat (c :: l) = digitVal c * 10 ^ l.length + digitsToNat l := by
  show (c :: l).foldl (fun acc c => 10 * acc + digitVal c) 0 = _
  simp only [List.foldl_cons]
  rw [digitsToNat_foldl_acc]
  ring_nf

theorem digitsToNat_pos {c : Char} (l : List Char) (h : c ≠ '0') (hd : isDig c = true) :
    1 ≤ digitsToNat (c :: l) := by
  rw [digitsToNat_cons]
  have h1 : 1 ≤ digitVal c := by
    have := toNat_of_ne_zeroChar h hd
    unfold digitVal
    omega
  have h2 : 1 ≤ 10 ^ l.length := Nat.one_le_pow _ _ (by omega)
  have := Nat.mul_le_mul h1 h2
  omega

theorem padDigits_digitsToNat : ∀ l : List Char, (∀ c ∈ l, isDig c = true) →
    padDigits l.length (digitsToNat l) = l := by
  intro l
  induction l using List.reverseRecOn with
  | nil => intro _; rfl
  | append_singleton l c ih =>
    intro h
    have hc : isDig c = true := h c (by simp)
    have hl : ∀ x ∈ l, isDig x = true := fun x hx => h x (by simp [hx])
    have hv := digitVal_lt_ten hc
    rw [digitsToNat_append, List.length_append, List.length_singleton]
    show padDigits l.length ((10 * digitsToNat l + digitVal c) / 10) ++
        [digitChar ((10 * digitsToNat l + digitVal c) % 10)] = l ++ [c]
    have h1 : (10 * digitsToNat l + digitVal c) / 10 = digitsToNat l := by omega
    have h2 : (10 * digitsToNat l + digitVal c) % 10 = digitVal c := by omega
    rw [h1, h2, digitChar_digitVal hc, ih hl]

theorem natDigitsAux_irrel : ∀ f₁ : ℕ, ∀ f₂ n : ℕ, n < f₁ → n < f₂ →
    natDigitsAux f₁ n = natDigitsAux f₂ n := by
  intro f₁
  induction f₁ with
  | zero => intro f₂ n h1 _; omega
  | succ f ih =>
    intro f₂ n h1 h2
    cases f₂ with
    | zero => omega
    | succ f₂' =>
      by_cases hn : n < 10
      · simp [natDigitsAux, hn]
      · have hd : n / 10 < f := by omega
        have hd' : n / 10 < f₂' := by omega
        simp only [natDigitsAux, if_neg hn]
        rw [ih f₂' (n / 10) hd hd']

theorem natDigits_unfold (n : ℕ) :
    natDigits n = if n < 10 then [digitChar n]
      else natDigits (n / 10) ++ [digitChar (n % 10)] := by
  by_cases hn : n < 10
  · rw [if_pos hn]
    unfold natDigits
    simp [natDigitsAux, hn]
  · rw [if_neg hn]
    have step : natDigitsAux (n + 1) n = natDigitsAux n (n / 10) ++ [digitChar (n % 10)] := by
      simp [natDigitsAux, hn]
    show natDigitsAux (n + 1) n = _
    rw [step, natDigitsAux_irrel n (n / 10 + 1) (n / 10) (by omega) (by omega)]
    rfl

theorem natDigits_digitsToNat : ∀ l : List Char, l ≠ [] → (∀ c ∈ l, isDig c = true) →
    (l.head? = some '0' → l = ['0']) → natDigits (digitsToNat l) = l := by
  intro l
  induction l using List.reverseRecOn with
  | nil => intro hne _ _; exact absurd rfl hne
  | append_singleton l c ih =>
    intro _ hd hz
    have hc : isDig c = true := hd c (by simp)
    have hvc := digitVal_lt_ten hc
    cases l with
    | nil =>
      have e1 : digitsToNat ([] ++ [c]) = digitVal c := by
        rw [List.nil_append, digitsToNat_cons]
        simp [digitsToNat]
      rw [e1, natDigits_unfold, if_pos hvc, digitChar_digitVal hc]
      rfl
    | cons c' l'' =>
      have hc' : c' ≠ '0' := by
        intro hcc
        have hh : ((c' :: l'') ++ [c]).head? = some '0' := by simp [hcc]
        have h2 := hz hh
        have h3 := congrArg List.length h2
        simp at h3
      have hd' : ∀ x ∈ c' :: l'', isDig x = true :=
        fun x hx => hd x (List.mem_append_left [c] hx)
      have hk : 1 ≤ digitsToNat (c' :: l'') :=
        digitsToNat_pos l'' hc' (hd' c' (by simp))
      rw [digitsToNat_append]
      have hge : ¬(10 * digitsToNat (c' :: l'') + digitVal c < 10) := by omega
      rw [natDigits_unfold, if_neg hge]
      have h1 : (10 * digitsToNat (c' :: l'') + digitVal c) / 10 = digitsToNat (c' :: l'') := by omega
      have h2 : (10 * digitsToNat (c' :: l'') + digitVal c) % 10 = digitVal c := by omega
      rw [h1, h2, digitChar_digitVal hc]
      rw [ih (by simp) hd' (fun hh => by simp at hh; exact absurd hh hc')]

/-! ### Proleptic Gregorian calendar arithmetic

The repository compares, subtracts and normalizes Python datetime and date
values (volume.py nearest and at, core.py get_vol and _ensure_utc). The
standard-library calendar arithmetic backing those operations is not part
of the repository sources, so it is modelled here: conversion between
civil triples (year, month, day) and day ordinals of the proleptic
Gregorian calendar, as used by date.toordinal and date.fromordinal. -/

/-- Modelled from the spec: the Gregorian leap-year rule used by the
missing standard-library datetime module. -/
def isLeap (y : ℕ) : Prop := y % 4 = 0 ∧ (y % 100 ≠ 0 ∨ y % 400 = 0)

instance (y : ℕ) : Decidable (isLeap y) := by unfold isLeap; exact inferInstance

/-- Modelled from the spec: length of a civil month, as the missing
standard-library calendar arithmetic defines it. -/
def daysInMonth (y m : ℕ) : ℕ :=
  if m = 2 then (if isLeap y then 29 else 28)
  else if m = 4 ∨ m = 6 ∨ m = 9 ∨ m = 11 then 30 else 31

/-- Modelled from the spec: days in year y preceding the first of month m. -/
def daysBeforeMonth (y m : ℕ) : ℕ :=
  (if m = 2 then 31 else if m = 3 then 59 else if m = 4 then 90
   else if m = 5 then 120 else if m = 6 then 151 else if m = 7 then 181
   else if m = 8 then 212 else if m = 9 then 243 else if m = 10 then 273
   else if m = 11 then 304 else if m = 12 then 334 else 0)
  + (if 2 < m ∧ isLeap y then 1 else 0)

/-- Modelled from the spec: days before January first of year y, counted
from the calendar epoch (year 1, ordinal one). -/
def daysBeforeYear (y : ℕ) : ℕ :=
  (y - 1) * 365 + (y - 1) / 4 - (y - 1) / 100 + (y - 1) / 400

/-- Modelled from the spec: day ordinal of a civil date, the counterpart
of date.toordinal in the missing standard-library datetime module. -/
def ymd2ord (y m d : ℕ) : ℕ := daysBeforeYear y + daysBeforeMonth y m + d

/-- Modelled from the spec: month and day of a zero-based day-of-year
index, for a leap or non-leap year. -/
def monthDayOf (d0 : ℕ) (lp : Bool) : ℕ × ℕ :=
  let l : ℕ := if lp then 1 else 0
  if d0 < 31 then (1, d0 + 1)
  else if d0 < 59 + l then (2, d0 - 30)
  else if d0 < 90 + l then (3, d0 - 58 - l)
  else if d0 < 120 + l then (4, d0 - 89 - l)
  else if d0 < 151 + l then (5, d0 - 119 - l)
  else if d0 < 181 + l then (6, d0 - 150 - l)
  else if d0 < 212 + l then (7, d0 - 180 - l)
  else if d0 < 243 + l then (8, d0 - 211 - l)
  else if d0 < 273 + l then (9, d0 - 242 - l)
  else if d0 < 304 + l then (10, d0 - 272 - l)
  else if d0 < 334 + l then (11, d0 - 303 - l)
  else (12, d0 - 333 - l)

/-- Modelled from the spec: civil triple of a zero-based day index inside
one 400-year Gregorian cycle, via the century, four-year and year divmod
chain of the missing standard-library ordinal-to-date conversion. -/
def blockYmd (a : ℕ) : ℕ × ℕ × ℕ :=
  let n100 := a / 36524
  let b := a % 36524
  let n4 := b / 1461
  let c := b % 1461
  let n1 := c / 365
  let d0 := c % 365
  let year := n100 * 100 + n4 * 4 + n1 + 1
  if n1 = 4 ∨ n100 = 4 then (year - 1, 12, 31)
  else (year, (monthDayOf d0 (decide (n1 = 3 ∧ (n4 ≠ 24 ∨ n100 = 3)))).1,
    (monthDayOf d0 (decide (n1 = 3 ∧ (n4 ≠ 24 ∨ n100 = 3)))).2)

/-- Modelled from the spec: civil date of a day ordinal, the counterpart
of date.fromordinal in the missing standard-library datetime module. -/
def ord2ymd (n : ℕ) : ℕ × ℕ × ℕ :=
  let n' := n - 1
  let t := blockYmd (n' % 146097)
  ((n' / 146097) * 400 + t.1, t.2.1, t.2.2)

/-- Leap indicator of a year as a numeral. -/
def leapBit (y : ℕ) : ℕ := if isLeap y then 1 else 0

/-- Month length as a function of the month and the leap indicator. -/
def dimT (m b : ℕ) : ℕ :=
  if m = 2 then 28 + b else if m = 4 ∨ m = 6 ∨ m = 9 ∨ m = 11 then 30 else 31

/-- Days before a month as a function of the month and the leap indicator. -/
def dbmT (m b : ℕ) : ℕ :=
  (if m = 2 then 31 else if m = 3 then 59 else if m = 4 then 90
   else if m = 5 then 120 else if m = 6 then 151 else if m = 7 then 181
   else if m = 8 then 212 else if m = 9 then 243 else if m = 10 then 273
   else if m = 11 then 304 else if m = 12 then 334 else 0)
  + (if 2 < m then b else 0)

theorem leapBit_lt_two (y : ℕ) : leapBit y < 2 := by
  unfold leapBit
  split <;> omega

theorem daysInMonth_eq_dimT (y m : ℕ) : daysInMonth y m = dimT m (leapBit y) := by
  by_cases hL : isLeap y <;> simp [daysInMonth, dimT, leapBit, hL]

theorem daysBeforeMonth_eq_dbmT (y m : ℕ) : daysBeforeMonth y m = dbmT m (leapBit y) := by
  by_cases hL : isLeap y <;> by_cases hm : 2 < m <;> simp [daysBeforeMonth, dbmT, leapBit, hL, hm]

/-- Inner predicate of the finite month-recovery check below. -/
def mdOK (b m d : ℕ) : Prop :=
  1 ≤ m → 1 ≤ d → d ≤ dimT m b →
    monthDayOf (dbmT m b + d - 1) (decide (b = 1)) = (m, d) ∧
    dbmT m b + d - 1 ≤ 364 + b

instance (b m d : ℕ) : Decidable (mdOK b m d) := by unfold mdOK; exact inferInstance

theorem monthDay_window : ∀ b < 2, ∀ m < 13, ∀ d < 32, mdOK b m d := by decide

theorem isLeap_iff_leapBit (y : ℕ) : isLeap y ↔ leapBit y = 1 := by
  unfold leapBit
  by_cases hL : isLeap y <;> simp [hL]

theorem monthDayOf_dbm (y m d : ℕ) (hm1 : 1 ≤ m) (hm : m ≤ 12) (hd1 : 1 ≤ d)
    (hd : d ≤ daysInMonth y m) :
    monthDayOf (daysBeforeMonth y m + d - 1) (decide (isLeap y)) = (m, d) := by
  rw [daysInMonth_eq_dimT] at hd
  rw [daysBeforeMonth_eq_dbmT]
  rw [decide_eq_decide.mpr (isLeap_iff_leapBit y)]
  have hb := leapBit_lt_two y
  have hdim : dimT m (leapBit y) ≤ 31 := by unfold dimT; split_ifs <;> omega
  have hw := monthDay_window (leapBit y) hb m (by omega) d (by omega)
  unfold mdOK at hw
  exact (hw hm1 hd1 hd).1

theorem doy_le (y m d : ℕ) (hm1 : 1 ≤ m) (hm : m ≤ 12) (hd1 : 1 ≤ d)
    (hd : d ≤ daysInMonth y m) :
    daysBeforeMonth y m + d - 1 ≤ 364 + leapBit y := by
  rw [daysInMonth_eq_dimT] at hd
  rw [daysBeforeMonth_eq_dbmT]
  have hb := leapBit_lt_two y
  have hdim : dimT m (leapBit y) ≤ 31 := by unfold dimT; split_ifs <;> omega
  have hw := monthDay_window (leapBit y) hb m (by omega) d (by omega)
  unfold mdOK at hw
  exact (hw hm1 hd1 hd).2

theorem blockYmd_eq (z doy : ℕ) (hz : z ≤ 399) (hdoy : doy ≤ 364 + leapBit (z + 1)) :
    blockYmd (z * 365 + z / 4 - z / 100 + z / 400 + doy) =
      (z + 1, (monthDayOf doy (decide (isLeap (z + 1)))).1,
        (monthDayOf doy (decide (isLeap (z + 1)))).2) := by
  obtain ⟨q100, q4, r4, hzeq, hq100, hq4, hr4, hr100⟩ :
      ∃ q100 q4 r4, z = 100 * q100 + 4 * q4 + r4 ∧ q100 ≤ 3 ∧ q4 ≤ 24 ∧ r4 ≤ 3 ∧
        4 * q4 + r4 ≤ 99 :=
    ⟨z / 100, z % 100 / 4, z % 100 % 4, by omega, by omega, by omega, by omega, by omega⟩
  have harg : z * 365 + z / 4 - z / 100 + z / 400 + doy =
      36524 * q100 + 1461 * q4 + 365 * r4 + doy := by omega
  rw [harg]
  have hleap : isLeap (z + 1) ↔ (r4 = 3 ∧ (q4 ≠ 24 ∨ q100 = 3)) := by
    unfold isLeap
    omega
  have hdoy' : doy ≤ 364 ∨ (doy = 365 ∧ r4 = 3 ∧ (q4 ≠ 24 ∨ q100 = 3)) := by
    unfold leapBit at hdoy
    by_cases hL : isLeap (z + 1)
    · rw [if_pos hL] at hdoy
      rcases Nat.lt_or_ge doy 365 with h | h
      · left; omega
      · right; exact ⟨by omega, hleap.mp hL⟩
    · rw [if_neg hL] at hdoy
      left
      omega
  by_cases hsp : r4 = 3 ∧ doy = 365
  · obtain ⟨hr43, hdoy365⟩ := hsp
    have hLp : isLeap (z + 1) := by
      rcases hdoy' with h | h
      · exact absurd hdoy365 (by omega)
      · exact hleap.mpr h.2
    by_cases hq24 : q4 = 24
    · have hq3 : q100 = 3 := by
        rcases (hleap.mp hLp).2 with h | h
        · exact absurd hq24 h
        · exact h
      have hzz : z = 399 := by omega
      subst hq3 hq24 hr43 hdoy365 hzz
      decide
    · have h1 : (36524 * q100 + 1461 * q4 + 365 * r4 + doy) / 36524 = q100 := by omega
      have h2 : (36524 * q100 + 1461 * q4 + 365 * r4 + doy) % 36524 =
          1461 * q4 + 365 * r4 + doy := by omega
      have h3 : (1461 * q4 + 365 * r4 + doy) / 1461 = q4 := by omega
      have h4 : (1461 * q4 + 365 * r4 + doy) % 1461 = 365 * r4 + doy := by omega
      have h5 : (365 * r4 + doy) / 365 = 4 := by omega
      simp only [blockYmd]
      rw [h1, h2, h3, h4, h5]
      rw [if_pos (Or.inl rfl)]
      have hmd : monthDayOf doy (decide (isLeap (z + 1))) = (12, 31) := by
        rw [hdoy365, decide_eq_true hLp]
        rfl
      rw [hmd]
      have hyy : q100 * 100 + q4 * 4 + 4 + 1 - 1 = z + 1 := by omega
      rw [hyy]
  · have hdoy364 : doy ≤ 364 := by
      rcases hdoy' with h | h
      · exact h
      · exact absurd ⟨h.2.1, h.1⟩ hsp
    have h1 : (36524 * q100 + 1461 * q4 + 365 * r4 + doy) / 36524 = q100 := by omega
    have h2 : (36524 * q100 + 1461 * q4 + 365 * r4 + doy) % 36524 =
        1461 * q4 + 365 * r4 + doy := by omega
    have h3 : (1461 * q4 + 365 * r4 + doy) / 1461 = q4 := by omega
    have h4 : (1461 * q4 + 365 * r4 + doy) % 1461 = 365 * r4 + doy := by omega
    have h5 : (365 * r4 + doy) / 365 = r4 := by omega
    have h6 : (365 * r4 + doy) % 365 = doy := by omega
    simp only [blockYmd]
    rw [h1, h2, h3, h4, h5, h6]
    rw [if_neg (by omega : ¬(r4 = 4 ∨ q100 = 4))]
    have hdec : (decide (r4 = 3 ∧ (q4 ≠ 24 ∨ q100 = 3))) = (decide (isLeap (z + 1))) :=
      decide_eq_decide.mpr hleap.symm
    have hmd1 : monthDayOf doy (decide (r4 = 3 ∧ (q4 ≠ 24 ∨ q100 = 3))) =
        monthDayOf doy (decide (isLeap (z + 1))) := by rw [hdec]
    rw [hmd1]
    have hyy : q100 * 100 + q4 * 4 + r4 + 1 = z + 1 := by omega
    rw [hyy]

theorem ord2ymd_ymd2ord_window (z m d : ℕ) (hz : z ≤ 399)
    (hm1 : 1 ≤ m) (hm : m ≤ 12) (hd1 : 1 ≤ d) (hd : d ≤ daysInMonth (z + 1) m) :
    ord2ymd (ymd2ord (z + 1) m d) = (z + 1, m, d) := by
  have hdoy := doy_le (z + 1) m d hm1 hm hd1 hd
  have harg : ymd2ord (z + 1) m d - 1 =
      z * 365 + z / 4 - z / 100 + z / 400 + (daysBeforeMonth (z + 1) m + d - 1) := by
    unfold ymd2ord daysBeforeYear
    omega
  have hmod4 : leapBit (z + 1) = 1 → (z + 1) % 4 = 0 := by
    intro h
    have hL := (isLeap_iff_leapBit (z + 1)).mpr h
    unfold isLeap at hL
    exact hL.1
  have hbound : ymd2ord (z + 1) m d - 1 ≤ 146096 := by
    rw [harg]
    have hlb := leapBit_lt_two (z + 1)
    by_cases hlb1 : leapBit (z + 1) = 1
    · have h4 := hmod4 hlb1
      omega
    · have : leapBit (z + 1) = 0 := by omega
      omega
  simp only [ord2ymd]
  have hq : (ymd2ord (z + 1) m d - 1) / 146097 = 0 := by omega
  have hr : (ymd2ord (z + 1) m d - 1) % 146097 = ymd2ord (z + 1) m d - 1 := by omega
  rw [hq, hr, harg, blockYmd_eq z (daysBeforeMonth (z + 1) m + d - 1) hz hdoy]
  rw [monthDayOf_dbm (z + 1) m d hm1 hm hd1 hd]
  simp

theorem daysBeforeMonth_periodic (y k m : ℕ) :
    daysBeforeMonth (y + 400 * k) m = daysBeforeMonth y m := by
  have hiff : isLeap (y + 400 * k) ↔ isLeap y := by unfold isLeap; omega
  unfold daysBeforeMonth
  rw [if_congr (and_congr_right fun _ => hiff) rfl rfl]

theorem ymd2ord_periodic (y m d k : ℕ) (hy : 1 ≤ y) :
    ymd2ord (y + 400 * k) m d = ymd2ord y m d + 146097 * k := by
  unfold ymd2ord
  rw [daysBeforeMonth_periodic]
  unfold daysBeforeYear
  omega

theorem ord2ymd_periodic (n k : ℕ) (hn : 1 ≤ n) :
    ord2ymd (n + 146097 * k) =
      ((ord2ymd n).1 + 400 * k, (ord2ymd n).2.1, (ord2ymd n).2.2) := by
  simp only [ord2ymd]
  have h1 : (n + 146097 * k - 1) / 146097 = (n - 1) / 146097 + k := by omega
  have h2 : (n + 146097 * k - 1) % 146097 = (n - 1) % 146097 := by omega
  rw [h1, h2]
  have hyy : ∀ q t1 : ℕ, (q + k) * 400 + t1 = q * 400 + t1 + 400 * k := by
    intro q t1
    ring
  rw [hyy]

theorem ymd2ord_pos (y m d : ℕ) (hd : 1 ≤ d) : 1 ≤ ymd2ord y m d := by
  unfold ymd2ord
  omega

theorem ord2ymd_ymd2ord (y m d : ℕ) (hy1 : 1 ≤ y) (hm1 : 1 ≤ m) (hm : m ≤ 12)
    (hd1 : 1 ≤ d) (hd : d ≤ daysInMonth y m) :
    ord2ymd (ymd2ord y m d) = (y, m, d) := by
  obtain ⟨k, r, hyeq, hr1, hr400⟩ : ∃ k r, y = r + 400 * k ∧ 1 ≤ r ∧ r ≤ 400 :=
    ⟨(y - 1) / 400, (y - 1) % 400 + 1, by omega, by omega, by omega⟩
  subst hyeq
  have hdim : daysInMonth (r + 400 * k) m = daysInMonth r m := by
    have hiff : isLeap (r + 400 * k) ↔ isLeap r := by unfold isLeap; omega
    unfold daysInMonth
    rw [if_congr Iff.rfl (if_congr hiff rfl rfl) rfl]
  rw [hdim] at hd
  rw [ymd2ord_periodic r m d k hr1]
  rw [ord2ymd_periodic (ymd2ord r m d) k (ymd2ord_pos r m d hd1)]
  obtain ⟨z, hzeq⟩ : ∃ z, r = z + 1 := ⟨r - 1, by omega⟩
  subst hzeq
  rw [ord2ymd_ymd2ord_window z m d (by omega) hm1 hm hd1 hd]

/-! ### Dates and datetimes

Python date and datetime values are embedded as records of civil fields.
Comparison of both types is lexicographic on the fields, as in the missing
standard-library implementation; datetime subtraction is modelled through
the day ordinal, and timezone-aware values carry their fixed utcoffset. -/

/-- Model of a Python date value (core.py treats dates as day selectors). -/
structure PyDate where
  year : ℕ
  month : ℕ
  day : ℕ
deriving DecidableEq

/-- Model of a naive Python datetime value by its civil fields. -/
structure PyDateTime where
  year : ℕ
  month : ℕ
  day : ℕ
  hour : ℕ
  minute : ℕ
  second : ℕ
  microsecond : ℕ
deriving DecidableEq

/-- Modelled from the spec: Python date comparison, lexicographic on
(year, month, day). -/
abbrev pdLe (a b : PyDate) : Prop :=
  a.year < b.year ∨ (a.year = b.year ∧
    (a.month < b.month ∨ (a.month = b.month ∧ a.day ≤ b.day)))

/-- Strict version of the date order. -/
abbrev pdLt (a b : PyDate) : Prop :=
  a.year < b.year ∨ (a.year = b.year ∧
    (a.month < b.month ∨ (a.month = b.month ∧ a.day < b.day)))

/-- Lexicographic order on equal-length numeral lists, helper for the
datetime comparison below. -/
def lexLe : List ℕ → List ℕ → Bool
  | [], _ => true
  | _ :: _, [] => false
  | a :: as, b :: bs => if a < b then true else if a = b then lexLe as bs else false

/-- Field tuple of a datetime, in comparison order. -/
def PyDateTime.fieldList (t : PyDateTime) : List ℕ :=
  [t.year, t.month, t.day, t.hour, t.minute, t.second, t.microsecond]

/-- Modelled from the spec: Python datetime comparison, lexicographic on
the civil fields. -/
def dtLeB (a b : PyDateTime) : Bool := lexLe a.fieldList b.fieldList

/-- Model of datetime.date(). -/
def PyDateTime.date (t : PyDateTime) : PyDate := ⟨t.year, t.month, t.day⟩

/-- Modelled from the spec: total microseconds of a datetime measured from
the calendar epoch, so that the timedelta of a datetime subtraction a - b
has exactly dateTimeToMicros a - dateTimeToMicros b microseconds. -/
def dateTimeToMicros (t : PyDateTime) : ℤ :=
  (ymd2ord t.year t.month t.day : ℤ) * 86400000000 +
    (((t.hour * 3600 + t.minute * 60 + t.second) * 1000000 + t.microsecond : ℕ) : ℤ)

/-- Modelled from the spec: the datetime at a given number of epoch
microseconds, the inverse used by datetime plus timedelta normalization. -/
def microsToDateTime (mic : ℤ) : PyDateTime :=
  let tod := (mic % 86400000000).toNat
  let t := ord2ymd (mic / 86400000000).toNat
  ⟨t.1, t.2.1, t.2.2, tod / 3600000000, tod % 3600000000 / 60000000,
    tod % 60000000 / 1000000, tod % 1000000⟩

/-- Field ranges of a constructible Python datetime (MINYEAR 1 to
MAXYEAR 9999, valid civil date, time fields in range). -/
def validDateTime (t : PyDateTime) : Prop :=
  1 ≤ t.year ∧ t.year ≤ 9999 ∧ 1 ≤ t.month ∧ t.month ≤ 12 ∧ 1 ≤ t.day ∧
    t.day ≤ daysInMonth t.year t.month ∧ t.hour ≤ 23 ∧ t.minute ≤ 59 ∧
    t.second ≤ 59 ∧ t.microsecond ≤ 999999

instance (t : PyDateTime) : Decidable (validDateTime t) := by
  unfold validDateTime
  exact inferInstance

/-- Normalization of core.py _ensure_utc: a naive instant is returned
unchanged, an aware instant (local civil fields plus a fixed utcoffset in
seconds) is converted to the UTC civil fields of the same physical
instant and its timezone tag dropped. -/
def ensure_utc (t : PyDateTime) (tzOffsetSeconds : Option ℤ) : PyDateTime :=
  match tzOffsetSeconds with
  | none => t
  | some off => microsToDateTime (dateTimeToMicros t - off * 1000000)

theorem microsToDateTime_dateTimeToMicros (t : PyDateTime) (h : validDateTime t) :
    microsToDateTime (dateTimeToMicros t) = t := by
  obtain ⟨y, mo, d, hh, mi, ss, us⟩ := t
  unfold validDateTime at h
  simp only at h
  obtain ⟨h1, h2, h3, h4, h5, h6, h7, h8, h9, h10⟩ := h
  simp only [microsToDateTime, dateTimeToMicros]
  have e1 : (((ymd2ord y mo d : ℤ) * 86400000000 +
      (((hh * 3600 + mi * 60 + ss) * 1000000 + us : ℕ) : ℤ)) / 86400000000).toNat =
      ymd2ord y mo d := by omega
  have e2 : (((ymd2ord y mo d : ℤ) * 86400000000 +
      (((hh * 3600 + mi * 60 + ss) * 1000000 + us : ℕ) : ℤ)) % 86400000000).toNat =
      (hh * 3600 + mi * 60 + ss) * 1000000 + us := by omega
  rw [e1, e2, ord2ymd_ymd2ord y mo d h1 h3 h4 h5 h6]
  have e3 : ((hh * 3600 + mi * 60 + ss) * 1000000 + us) / 3600000000 = hh := by omega
  have e4 : ((hh * 3600 + mi * 60 + ss) * 1000000 + us) % 3600000000 / 60000000 = mi := by omega
  have e5 : ((hh * 3600 + mi * 60 + ss) * 1000000 + us) % 60000000 / 1000000 = ss := by omega
  have e6 : ((hh * 3600 + mi * 60 + ss) * 1000000 + us) % 1000000 = us := by omega
  rw [e3, e4, e5, e6]

theorem ensure_utc_eq_of_same_instant (t1 t2 : PyDateTime) (off : ℤ)
    (hval : validDateTime t1)
    (hsame : dateTimeToMicros t2 - off * 1000000 = dateTimeToMicros t1) :
    ensure_utc t2 (some off) = ensure_utc t1 none := by
  show microsToDateTime (dateTimeToMicros t2 - off * 1000000) = t1
  rw [hsame]
  exact microsToDateTime_dateTimeToMicros t1 hval

/-! ### Errors

Python exceptions raised by the embedded code, carrying the data that the
corresponding message interpolates. -/

/-- Errors of the embedded layer. valueError covers ValueError with a
fixed message; toleranceValueError stands for the ValueError of core.py
get_vol reporting that no volume lies within the tolerance, carrying the
tolerance, the query instant, the nearest timestamp and its delta in
seconds; fileNotFoundError stands for FileNotFoundError naming the radar,
the queried day and the expected zip path; typeError for TypeError. -/
inductive PyError where
  | valueError (msg : String)
  | toleranceValueError (toleranceSeconds : ℚ) (target : PyDateTime)
      (nearestTimestamp : PyDateTime) (diffSeconds : ℚ)
  | fileNotFoundError (radar : ℕ) (day : PyDate) (zipPath : List String)
  | typeError (msg : String)
deriving DecidableEq

/-! ### Volume name grammar and lazy volumes

Embedding of config.py VOLUME_PATTERN and volume.py LazyVolume. File
names are lists of characters; paths are lists of path segments. -/

/-- Model of config.py VOLUME_PATTERN, the anchored pattern of one or
more digits, an underscore, eight digits, an underscore, six digits and
the literal suffix .pvol.h5; returns the three capture groups. The
maximal digit prefix followed by a non-digit reproduces the backtracking
behaviour of the regular expression, since a digit given back by the
greedy group can never match the underscore. -/
def matchVolume (l : List Char) : Option (List Char × List Char × List Char) :=
  if (l.takeWhile isDig).isEmpty then none
  else
    match l.dropWhile isDig with
    | '_' :: r2 =>
      if (r2.take 8).length = 8 ∧ (r2.take 8).all isDig then
        match r2.drop 8 with
        | '_' :: r4 =>
          if (r4.take 6).length = 6 ∧ (r4.take 6).all isDig ∧
              r4.drop 6 = ".pvol.h5".data then
            some (l.takeWhile isDig, r2.take 8, r4.take 6)
          else none
        | _ => none
      else none
    | _ => none

/-- Modelled from the spec: datetime.strptime with format Ymd HMS on the
two fixed-width digit groups of the volume-name grammar; the missing
standard-library implementation accepts exactly the field values that a
datetime constructor accepts, and rejects out-of-range dates and times
with a ValueError. -/
def strptimeVol (d8 t6 : List Char) : Except PyError PyDateTime :=
  if 1 ≤ digitsToNat (d8.take 4) ∧ 1 ≤ digitsToNat ((d8.drop 4).take 2) ∧
      digitsToNat ((d8.drop 4).take 2) ≤ 12 ∧ 1 ≤ digitsToNat (d8.drop 6) ∧
      digitsToNat (d8.drop 6) ≤
        daysInMonth (digitsToNat (d8.take 4)) (digitsToNat ((d8.drop 4).take 2)) ∧
      digitsToNat (t6.take 2) ≤ 23 ∧ digitsToNat ((t6.drop 2).take 2) ≤ 59 ∧
      digitsToNat (t6.drop 4) ≤ 59 then
    .ok ⟨digitsToNat (d8.take 4), digitsToNat ((d8.drop 4).take 2), digitsToNat (d8.drop 6),
      digitsToNat (t6.take 2), digitsToNat ((t6.drop 2).take 2), digitsToNat (t6.drop 4), 0⟩
  else
    .error (.valueError "time data does not match the expected format or is out of range")

/-- Model of volume.py LazyVolume: an immutable reference to one entry of
one zip container, with the radar id and UTC timestamp parsed from the
entry name. No payload is carried. -/
structure LazyVolume where
  zip_path : List String
  filename : String
  radar_id : ℕ
  timestamp : PyDateTime
deriving DecidableEq

/-- Model of volume.py LazyVolume.from_filename: reject names failing
VOLUME_PATTERN with a ValueError, parse the radar id with int() and the
timestamp with strptime, and build the immutable reference. -/
def LazyVolume.from_filename (zp : List String) (filename : String) :
    Except PyError LazyVolume :=
  match matchVolume filename.data with
  | none => .error (.valueError ("Invalid volume filename: " ++ filename))
  | some (g1, g2, g3) =>
    match strptimeVol g2 g3 with
    | .error e => .error e
    | .ok ts => .ok ⟨zp, filename, digitsToNat g1, ts⟩

/-! ### Volume collections

Embedding of volume.py VolumeList with the operations the spec covers:
construction, stable sort by timestamp, nearest and at. -/

/-- Model of volume.py VolumeList: an ordered collection of lazy volume
references. -/
structure VolumeList where
  volumes : List LazyVolume
deriving DecidableEq

/-- Insert a volume after all entries whose timestamp is less than or
equal to its own; auxiliary step of the stable sort below. -/
def insertSortedVol (v : LazyVolume) : List LazyVolume → List LazyVolume
  | [] => [v]
  | x :: xs => if dtLeB x.timestamp v.timestamp then x :: insertSortedVol v xs else v :: x :: xs

/-- Stable ascending sort by timestamp, the model of the in-place
volumes.sort of core.py _list_volumes_in_zip. A stable ascending sort is
extensionally unique, so this insertion sort agrees with the Python
sort. -/
def sortByTimestamp (l : List LazyVolume) : List LazyVolume :=
  l.foldl (fun acc v => insertSortedVol v acc) []

/-- Sort key of volume.py VolumeList.nearest: the absolute value of the
total seconds of the timedelta between a volume timestamp and the target,
modelled exactly over the rationals. -/
def nearKey (target : PyDateTime) (v : LazyVolume) : ℚ :=
  ((dateTimeToMicros v.timestamp - dateTimeToMicros target).natAbs : ℚ) / 1000000

/-- Model of volume.py VolumeList.nearest: raise ValueError on an empty
collection, otherwise return the Python min of the collection under
nearKey, which keeps the first element attaining the minimum. -/
def VolumeList.nearest (vl : VolumeList) (target : PyDateTime) : Except PyError LazyVolume :=
  match vl.volumes with
  | [] => .error (.valueError "Cannot find nearest in empty VolumeList")
  | x :: xs =>
    .ok (xs.foldl (fun best v => if nearKey target v < nearKey target best then v else best) x)

/-- Model of volume.py VolumeList.at: return none on an empty collection,
otherwise return the nearest volume when its key is within the tolerance
and none otherwise. -/
def VolumeList.at' (vl : VolumeList) (target : PyDateTime) (tolerance_seconds : ℚ) :
    Except PyError (Option LazyVolume) :=
  if vl.volumes.isEmpty then .ok none
  else
    match vl.nearest target with
    | .error e => .error e
    | .ok n =>
      if nearKey target n ≤ tolerance_seconds then .ok (some n) else .ok none

theorem insertSortedVol_length (v : LazyVolume) :
    ∀ l : List LazyVolume, (insertSortedVol v l).length = l.length + 1 := by
  intro l
  induction l with
  | nil => rfl
  | cons x xs ih =>
    unfold insertSortedVol
    split
    · simp [ih]
    · simp

theorem sortByTimestamp_length (l : List LazyVolume) :
    (sortByTimestamp l).length = l.length := by
  have hgen : ∀ l acc : List LazyVolume,
      (l.foldl (fun acc v => insertSortedVol v acc) acc).length = acc.length + l.length := by
    intro l
    induction l with
    | nil => intro acc; simp
    | cons x xs ih =>
      intro acc
      simp only [List.foldl_cons]
      rw [ih (insertSortedVol x acc), insertSortedVol_length]
      simp only [List.length_cons]
      omega
  unfold sortByTimestamp
  rw [hgen l []]
  simp

theorem nearest_foldl_spec (target : PyDateTime) :
    ∀ (l : List LazyVolume) (b : LazyVolume),
    (l.foldl (fun best v => if nearKey target v < nearKey target best then v else best) b = b ∧
      ∀ x ∈ l, nearKey target b ≤ nearKey target x) ∨
    (∃ l₁ r l₂, l = l₁ ++ r :: l₂ ∧
      l.foldl (fun best v => if nearKey target v < nearKey target best then v else best) b = r ∧
      nearKey target r < nearKey target b ∧
      (∀ x ∈ l, nearKey target r ≤ nearKey target x) ∧
      ∀ x ∈ l₁, nearKey target r < nearKey target x) := by
  intro l
  induction l with
  | nil =>
    intro b
    left
    exact ⟨rfl, by simp⟩
  | cons y ys ih =>
    intro b
    simp only [List.foldl_cons]
    by_cases hy : nearKey target y < nearKey target b
    · rw [if_pos hy]
      rcases ih y with ⟨he, hmin⟩ | ⟨l₁, r, l₂, hsplit, hfold, hlt, hmin, hfirst⟩
      · right
        refine ⟨[], y, ys, by simp, he, hy, ?_, by simp⟩
        intro x hx
        rcases List.mem_cons.mp hx with rfl | h
        · exact le_refl _
        · exact hmin x h
      · right
        refine ⟨y :: l₁, r, l₂, by rw [hsplit, List.cons_append], hfold, lt_trans hlt hy, ?_, ?_⟩
        · intro x hx
          rcases List.mem_cons.mp hx with rfl | h
          · exact le_of_lt hlt
          · exact hmin x h
        · intro x hx
          rcases List.mem_cons.mp hx with rfl | h
          · exact hlt
          · exact hfirst x h
    · rw [if_neg hy]
      have hby : nearKey target b ≤ nearKey target y := not_lt.mp hy
      rcases ih b with ⟨he, hmin⟩ | ⟨l₁, r, l₂, hsplit, hfold, hlt, hmin, hfirst⟩
      · left
        refine ⟨he, ?_⟩
        intro x hx
        rcases List.mem_cons.mp hx with rfl | h
        · exact hby
        · exact hmin x h
      · right
        refine ⟨y :: l₁, r, l₂, by rw [hsplit, List.cons_append], hfold, hlt, ?_, ?_⟩
        · intro x hx
          rcases List.mem_cons.mp hx with rfl | h
          · exact le_of_lt (lt_of_lt_of_le hlt hby)
          · exact hmin x h
        · intro x hx
          rcases List.mem_cons.mp hx with rfl | h
          · exact lt_of_lt_of_le hlt hby
          · exact hfirst x h

/-! ### Path construction and archive scanning

Embedding of config.py zip_path and core.py _list_volumes_in_zip,
_get_volumes_for_date and _get_volumes_for_range. The file system is a
function from zip paths to the optional list of entry names. -/

/-- Decimal rendering of a natural number as a string. -/
def natStr (n : ℕ) : String := String.mk (natDigits n)

/-- Zero-padded decimal rendering of a natural number as a string. -/
def padStr (w n : ℕ) : String := String.mk (padDigits w n)

/-- Model of config.py zip_path through radar_path, year_path and
vol_path: base, str(rid), str(year), vol, and the zip file name with the
radar id unpadded and the date as an eight digit field. -/
def zip_path (base : List String) (rid y m d : ℕ) : List String :=
  base ++ [natStr rid, natStr y, "vol",
    natStr rid ++ "_" ++ padStr 4 y ++ padStr 2 m ++ padStr 2 d ++ ".pvol.zip"]

/-- Model of core.py _list_volumes_in_zip: an absent zip yields an empty
list, no error; otherwise each entry name matching VOLUME_PATTERN becomes
a LazyVolume, entries whose construction raises ValueError are skipped,
and the result is sorted ascending by timestamp. -/
def _list_volumes_in_zip (fs : List String → Option (List String)) (zip_file : List String) :
    List LazyVolume :=
  match fs zip_file with
  | none => []
  | some names =>
    sortByTimestamp (names.filterMap fun n =>
      if (matchVolume n.data).isSome then (LazyVolume.from_filename zip_file n).toOption
      else none)

/-- Model of core.py _get_volumes_for_date. -/
def _get_volumes_for_date (fs : List String → Option (List String)) (base : List String)
    (rid : ℕ) (day : PyDate) : VolumeList :=
  ⟨_list_volumes_in_zip fs (zip_path base rid day.year day.month day.day)⟩

/-- Modelled from the spec: date plus one day, the civil successor used
by the range loop of core.py through timedelta(days=1). -/
def nextDay (d : PyDate) : PyDate :=
  if d.day < daysInMonth d.year d.month then ⟨d.year, d.month, d.day + 1⟩
  else if d.month < 12 then ⟨d.year, d.month + 1, 1⟩
  else ⟨d.year + 1, 1, 1⟩

/-- Fuel bound for the day-range loop, strictly decreasing along nextDay
while the loop guard holds; the loop equations proved below certify that
the fueled loop equals the while loop of core.py. -/
def rangeFuel (c e : PyDate) : ℕ :=
  (e.year + 1 - c.year) * 500 + (13 - c.month) * 35 + (32 - c.day)

/-- Fueled list of the calendar days visited by the range loop. -/
def daysFromAux (fuel : ℕ) (c e : PyDate) : List PyDate :=
  match fuel with
  | 0 => []
  | f + 1 => if pdLe c e then c :: daysFromAux f (nextDay c) e else []

/-- Calendar days from s to e inclusive, in loop order. -/
def dateRange (s e : PyDate) : List PyDate := daysFromAux (rangeFuel s e + 1) s e

/-- Fueled body of core.py _get_volumes_for_range: while current is at
most end, extend the accumulator with the scan of the current day and
step to the next day. -/
def rangeAux (fs : List String → Option (List String)) (base : List String) (rid : ℕ)
    (fuel : ℕ) (c e : PyDate) : List LazyVolume :=
  match fuel with
  | 0 => []
  | f + 1 =>
    if pdLe c e then
      (_get_volumes_for_date fs base rid c).volumes ++ rangeAux fs base rid f (nextDay c) e
    else []

/-- Model of core.py _get_volumes_for_range. -/
def _get_volumes_for_range (fs : List String → Option (List String)) (base : List String)
    (rid : ℕ) (s e : PyDate) : VolumeList :=
  ⟨rangeAux fs base rid (rangeFuel s e + 1) s e⟩

theorem daysInMonth_le_31 (y m : ℕ) : daysInMonth y m ≤ 31 := by
  unfold daysInMonth
  split_ifs <;> omega

theorem rangeFuel_dec (c e : PyDate) (h : pdLe c e) :
    rangeFuel (nextDay c) e < rangeFuel c e := by
  obtain ⟨cy, cm, cd⟩ := c
  obtain ⟨ey, em, ed⟩ := e
  have hdim := daysInMonth_le_31 cy cm
  simp only [pdLe] at h
  unfold nextDay
  split_ifs with h1 h2 <;> unfold rangeFuel <;> simp only at * <;> omega

theorem daysFromAux_irrel (e : PyDate) : ∀ f₁ f₂ : ℕ, ∀ c : PyDate,
    rangeFuel c e < f₁ → rangeFuel c e < f₂ → daysFromAux f₁ c e = daysFromAux f₂ c e := by
  intro f₁
  induction f₁ with
  | zero => intro f₂ c h1 _; omega
  | succ f ih =>
    intro f₂ c h1 h2
    cases f₂ with
    | zero => omega
    | succ f₂' =>
      by_cases hce : pdLe c e
      · simp only [daysFromAux, if_pos hce]
        have hdec := rangeFuel_dec c e hce
        rw [ih f₂' (nextDay c) (by omega) (by omega)]
      · simp only [daysFromAux, if_neg hce]

theorem rangeAux_irrel (fs : List String → Option (List String)) (base : List String)
    (rid : ℕ) (e : PyDate) : ∀ f₁ f₂ : ℕ, ∀ c : PyDate,
    rangeFuel c e < f₁ → rangeFuel c e < f₂ →
    rangeAux fs base rid f₁ c e = rangeAux fs base rid f₂ c e := by
  intro f₁
  induction f₁ with
  | zero => intro f₂ c h1 _; omega
  | succ f ih =>
    intro f₂ c h1 h2
    cases f₂ with
    | zero => omega
    | succ f₂' =>
      by_cases hce : pdLe c e
      · simp only [rangeAux, if_pos hce]
        have hdec := rangeFuel_dec c e hce
        rw [ih f₂' (nextDay c) (by omega) (by omega)]
      · simp only [rangeAux, if_neg hce]

theorem dateRange_loop_eq (s e : PyDate) :
    dateRange s e = if pdLe s e then s :: dateRange (nextDay s) e else [] := by
  by_cases h : pdLe s e
  · rw [if_pos h]
    have hdec := rangeFuel_dec s e h
    have hL : dateRange s e = s :: daysFromAux (rangeFuel s e) (nextDay s) e := by
      unfold dateRange
      simp only [daysFromAux, if_pos h]
    rw [hL]
    unfold dateRange
    rw [daysFromAux_irrel e (rangeFuel s e) (rangeFuel (nextDay s) e + 1) (nextDay s)
      (by omega) (by omega)]
  · rw [if_neg h]
    unfold dateRange
    simp only [daysFromAux, if_neg h]

theorem range_loop_eq (fs : List String → Option (List String)) (base : List String)
    (rid : ℕ) (s e : PyDate) :
    (_get_volumes_for_range fs base rid s e).volumes =
      if pdLe s e then
        (_get_volumes_for_date fs base rid s).volumes ++
          (_get_volumes_for_range fs base rid (nextDay s) e).volumes
      else [] := by
  by_cases h : pdLe s e
  · rw [if_pos h]
    have hdec := rangeFuel_dec s e h
    have hL : (_get_volumes_for_range fs base rid s e).volumes =
        (_get_volumes_for_date fs base rid s).volumes ++
          rangeAux fs base rid (rangeFuel s e) (nextDay s) e := by
      unfold _get_volumes_for_range
      simp only [rangeAux, if_pos h]
    rw [hL]
    unfold _get_volumes_for_range
    rw [rangeAux_irrel fs base rid e (rangeFuel s e) (rangeFuel (nextDay s) e + 1) (nextDay s)
      (by omega) (by omega)]
  · rw [if_neg h]
    unfold _get_volumes_for_range
    simp only [rangeAux, if_neg h]

theorem rangeAux_eq_flatMap (fs : List String → Option (List String)) (base : List String)
    (rid : ℕ) (e : PyDate) : ∀ fuel : ℕ, ∀ c : PyDate,
    rangeAux fs base rid fuel c e =
      (daysFromAux fuel c e).flatMap (fun d => (_get_volumes_for_date fs base rid d).volumes) := by
  intro fuel
  induction fuel with
  | zero => intro c; rfl
  | succ f ih =>
    intro c
    by_cases hce : pdLe c e
    · simp only [rangeAux, daysFromAux, if_pos hce, List.flatMap_cons]
      rw [ih (nextDay c)]
    · simp only [rangeAux, daysFromAux, if_neg hce, List.flatMap_nil]

theorem pdLe_mk (ay am ad cy cm cd : ℕ) :
    pdLe ⟨ay, am, ad⟩ ⟨cy, cm, cd⟩ ↔
      (ay < cy ∨ (ay = cy ∧ (am < cm ∨ (am = cm ∧ ad ≤ cd)))) := Iff.rfl

theorem pdLt_mk (ay am ad cy cm cd : ℕ) :
    pdLt ⟨ay, am, ad⟩ ⟨cy, cm, cd⟩ ↔
      (ay < cy ∨ (ay = cy ∧ (am < cm ∨ (am = cm ∧ ad < cd)))) := Iff.rfl

theorem pdLe_refl (c : PyDate) : pdLe c c := by
  obtain ⟨cy, cm, cd⟩ := c
  rw [pdLe_mk]
  omega

theorem pdLe_next (c : PyDate) : pdLe c (nextDay c) := by
  obtain ⟨cy, cm, cd⟩ := c
  unfold nextDay
  split_ifs with h1 h2 <;> dsimp only <;> rw [pdLe_mk] <;> omega

theorem pdLe_trans (a c d : PyDate) (h1 : pdLe a c) (h2 : pdLe c d) : pdLe a d := by
  obtain ⟨ay, am, ad⟩ := a
  obtain ⟨cy, cm, cd⟩ := c
  obtain ⟨dy, dm, dd⟩ := d
  rw [pdLe_mk] at h1 h2 ⊢
  omega

theorem daysFromAux_mem_bounds (e : PyDate) : ∀ fuel : ℕ, ∀ c : PyDate,
    ∀ d ∈ daysFromAux fuel c e, pdLe c d ∧ pdLe d e := by
  intro fuel
  induction fuel with
  | zero => intro c d hd; simp [daysFromAux] at hd
  | succ f ih =>
    intro c d hd
    by_cases hce : pdLe c e
    · simp only [daysFromAux, if_pos hce, List.mem_cons] at hd
      rcases hd with rfl | hd
      · exact ⟨pdLe_refl d, hce⟩
      · have hnext := ih (nextDay c) d hd
        exact ⟨pdLe_trans c (nextDay c) d (pdLe_next c) hnext.1, hnext.2⟩
    · simp only [daysFromAux, if_neg hce] at hd
      exact absurd hd (List.not_mem_nil d)

/-! ### The dispatcher

Embedding of core.py get_vol. The first temporal argument is either a
datetime (possibly timezone aware, carried as a fixed utcoffset in
seconds) or a pure date; the Python runtime check type(obj) is date is
the match on the constructor. Other runtime types, rejected by the final
TypeError of the source, are outside the model. -/

/-- Query shape of the first temporal argument of get_vol. -/
inductive TimeOrDate where
  | dt (t : PyDateTime) (tzOffsetSeconds : Option ℤ)
  | d (day : PyDate)
deriving DecidableEq

/-- Result of get_vol: a single reference or a collection. -/
inductive GetVolResult where
  | vol (v : LazyVolume)
  | list (l : VolumeList)
deriving DecidableEq

/-- Model of core.py get_vol. Case order follows the source: a supplied
end_date demands an exact date first argument, else TypeError; a pure
date is a whole-day query failing with FileNotFoundError when the day
scan is empty; a datetime is normalized to UTC, diverted to the whole-day
case when it is exactly midnight and nearest was not requested, and
otherwise resolved through nearest or at with the tolerance, where an
absent at result raises the ValueError reporting the nearest volume and
its delta. -/
def get_vol (fs : List String → Option (List String)) (base : List String) (rid : ℕ)
    (time_or_date : TimeOrDate) (end_date : Option PyDate) (nearest : Bool)
    (tolerance_seconds : ℚ) : Except PyError GetVolResult :=
  match end_date with
  | some e =>
    match time_or_date with
    | .d s => .ok (.list (_get_volumes_for_range fs base rid s e))
    | .dt _ _ =>
      .error (.typeError
        "When end_date is provided, first argument must be a date (not datetime). Use datetime.date() or pass a datetime.date object.")
  | none =>
    match time_or_date with
    | .d day =>
      let volumes := _get_volumes_for_date fs base rid day
      if volumes.volumes.isEmpty then
        .error (.fileNotFoundError rid day (zip_path base rid day.year day.month day.day))
      else .ok (.list volumes)
    | .dt t tz =>
      let dt := ensure_utc t tz
      let day := dt.date
      if (dt.hour = 0 ∧ dt.minute = 0 ∧ dt.second = 0 ∧ dt.microsecond = 0) ∧
          nearest = false then
        let volumes := _get_volumes_for_date fs base rid day
        if volumes.volumes.isEmpty then
          .error (.fileNotFoundError rid day (zip_path base rid day.year day.month day.day))
        else .ok (.list volumes)
      else
        let volumes := _get_volumes_for_date fs base rid day
        if volumes.volumes.isEmpty then
          .error (.fileNotFoundError rid day (zip_path base rid day.year day.month day.day))
        else
          if nearest then
            match volumes.nearest dt with
            | .error err => .error err
            | .ok v => .ok (.vol v)
          else
            match volumes.at' dt tolerance_seconds with
            | .error err => .error err
            | .ok (some v) => .ok (.vol v)
            | .ok none =>
              match volumes.nearest dt with
              | .error err => .error err
              | .ok nv =>
                .error (.toleranceValueError tolerance_seconds dt nv.timestamp
                  (nearKey dt nv))

/-! ### Supporting lemmas for the claims -/

deriving instance DecidableEq for Except

theorem isEmpty_false_of_ne {α : Type} {l : List α} (h : l ≠ []) : l.isEmpty = false := by
  cases l with
  | nil => exact absurd rfl h
  | cons x xs => rfl

theorem nearest_ok_of_ne (vl : VolumeList) (target : PyDateTime) (h : vl.volumes ≠ []) :
    ∃ n, vl.nearest target = .ok n := by
  rcases hvl : vl.volumes with _ | ⟨x, xs⟩
  · exact absurd hvl h
  · unfold VolumeList.nearest
    rw [hvl]
    exact ⟨_, rfl⟩

theorem at_eq_of_nearest (vl : VolumeList) (target : PyDateTime) (tol : ℚ) (n : LazyVolume)
    (hvl : vl.volumes ≠ []) (hn : vl.nearest target = .ok n) :
    vl.at' target tol = .ok (if nearKey target n ≤ tol then some n else none) := by
  unfold VolumeList.at'
  rw [isEmpty_false_of_ne hvl, hn]
  show (if nearKey target n ≤ tol then Except.ok (some n) else Except.ok none) =
    Except.ok (if nearKey target n ≤ tol then some n else none)
  split_ifs <;> rfl

/-! ### The claims -/

/-- C1: for every non-empty VolumeCollection and every target instant,
nearest returns a member of the collection minimizing the absolute time
delta to the target; when several members attain the minimum, the one
appearing earliest in collection order is returned. The conclusion
decomposes the collection around the returned member: every member has a
key at least as large, and every member strictly before the returned one
has a strictly larger key, so no earlier position attains the minimum and
no later minimizer is ever chosen. -/
theorem C1_nearest_min_first (vl : VolumeList) (target : PyDateTime)
    (h : vl.volumes ≠ []) :
    ∃ v l₁ l₂, vl.nearest target = .ok v ∧ vl.volumes = l₁ ++ v :: l₂ ∧
      (∀ x ∈ vl.volumes, nearKey target v ≤ nearKey target x) ∧
      (∀ x ∈ l₁, nearKey target v < nearKey target x) := by
  rcases hvl : vl.volumes with _ | ⟨x, xs⟩
  · exact absurd hvl h
  · have hne : vl.nearest target =
        .ok (xs.foldl (fun best v => if nearKey target v < nearKey target best then v else best) x) := by
      unfold VolumeList.nearest
      rw [hvl]
    rcases nearest_foldl_spec target xs x with ⟨he, hmin⟩ |
        ⟨l₁, r, l₂, hsplit, hfold, hlt, hmin, hfirst⟩
    · refine ⟨x, [], xs, ?_, ?_, ?_, ?_⟩
      · rw [hne, he]
      · rfl
      · intro z hz
        rcases List.mem_cons.mp hz with rfl | hz
        · exact le_refl _
        · exact hmin z hz
      · intro z hz
        exact absurd hz (List.not_mem_nil z)
    · refine ⟨r, x :: l₁, l₂, ?_, ?_, ?_, ?_⟩
      · rw [hne, hfold]
      · rw [hsplit, List.cons_append]
      · intro z hz
        rcases List.mem_cons.mp hz with rfl | hz
        · exact le_of_lt hlt
        · exact hmin z hz
      · intro z hz
        rcases List.mem_cons.mp hz with rfl | hz
        · exact hlt
        · exact hfirst z hz

/-- Fixture volume at 12:30:00 for the witnesses. -/
def volA : LazyVolume :=
  ⟨["data"], "2_20251016_123000.pvol.h5", 2, ⟨2025, 10, 16, 12, 30, 0, 0⟩⟩

/-- Fixture volume at 12:40:00 for the witnesses. -/
def volB : LazyVolume :=
  ⟨["data"], "2_20251016_124000.pvol.h5", 2, ⟨2025, 10, 16, 12, 40, 0, 0⟩⟩

/-- Fixture target instant 12:35:00, at equal distance of both fixture
volumes. -/
def targetW : PyDateTime := ⟨2025, 10, 16, 12, 35, 0, 0⟩

/-- C1 witness: the fixture collection is non-empty and the theorem
applies to it at the tie-producing target. -/
theorem C1_witness :
    (VolumeList.mk [volA, volB]).volumes ≠ [] ∧
    (∃ v l₁ l₂, (VolumeList.mk [volA, volB]).nearest targetW = .ok v ∧
      (VolumeList.mk [volA, volB]).volumes = l₁ ++ v :: l₂ ∧
      (∀ x ∈ (VolumeList.mk [volA, volB]).volumes,
        nearKey targetW v ≤ nearKey targetW x) ∧
      (∀ x ∈ l₁, nearKey targetW v < nearKey targetW x)) :=
  ⟨by decide, C1_nearest_min_first (VolumeList.mk [volA, volB]) targetW (by decide)⟩

/-- C3: for every non-empty VolumeCollection, target and tolerance, at
returns the present result exactly when the delta of the nearest volume
is within the tolerance, in which case the present value is that nearest
volume, and returns the explicit absent result otherwise; no error is
possible on a non-empty collection. -/
theorem C3_at_present_iff (vl : VolumeList) (target : PyDateTime) (tol : ℚ)
    (h : vl.volumes ≠ []) :
    ∃ n, vl.nearest target = .ok n ∧
      (nearKey target n ≤ tol → vl.at' target tol = .ok (some n)) ∧
      (¬nearKey target n ≤ tol → vl.at' target tol = .ok none) := by
  obtain ⟨n, hn⟩ := nearest_ok_of_ne vl target h
  refine ⟨n, hn, ?_, ?_⟩
  · intro hle
    rw [at_eq_of_nearest vl target tol n h hn, if_pos hle]
  · intro hnle
    rw [at_eq_of_nearest vl target tol n h hn, if_neg hnle]

/-- C3 witness: the theorem applies to the fixture collection, and the
nearest volume is within a 600 second tolerance of the target. -/
theorem C3_witness :
    (VolumeList.mk [volA, volB]).volumes ≠ [] ∧
    (∃ n, (VolumeList.mk [volA, volB]).nearest targetW = .ok n ∧
      (nearKey targetW n ≤ 600 → (VolumeList.mk [volA, volB]).at' targetW 600 = .ok (some n)) ∧
      (¬nearKey targetW n ≤ 600 → (VolumeList.mk [volA, volB]).at' targetW 600 = .ok none)) :=
  ⟨by decide, C3_at_present_iff (VolumeList.mk [volA, volB]) targetW 600 (by decide)⟩

/-- C4 counterexample: invoking at on a collection with zero elements
does not fail with the empty-collection error; it returns the explicit
absent result, refuting the claim that at raises EmptyCollectionError on
an empty collection. -/
theorem C4_counterexample :
    VolumeList.at' ⟨[]⟩ ⟨2025, 10, 16, 0, 0, 0, 0⟩ 60 = .ok none := rfl

/-- C4 amended: on a collection with zero elements, nearest fails with
the empty-collection ValueError, while at returns the explicit absent
result without raising. -/
theorem C4_empty_behavior (vl : VolumeList) (target : PyDateTime) (tol : ℚ)
    (h : vl.volumes = []) :
    vl.nearest target = .error (.valueError "Cannot find nearest in empty VolumeList") ∧
    vl.at' target tol = .ok none := by
  constructor
  · unfold VolumeList.nearest
    rw [h]
  · unfold VolumeList.at'
    rw [h]
    rfl

/-- C4 witness: the amended behavior holds at the empty collection. -/
theorem C4_witness :
    (VolumeList.mk []).volumes = [] ∧
    ((VolumeList.mk []).nearest targetW =
        .error (.valueError "Cannot find nearest in empty VolumeList") ∧
      (VolumeList.mk []).at' targetW 60 = .ok none) :=
  ⟨rfl, C4_empty_behavior (VolumeList.mk []) targetW 60 rfl⟩

/-- C9: for every radar and every pair of dates whose start is strictly
after the end, the day-range query returns the empty collection without
error, for every file-system state, so no day is scanned. -/
theorem C9_range_empty (fs : List String → Option (List String)) (base : List String)
    (rid : ℕ) (s e : PyDate) (h : pdLt e s) :
    _get_volumes_for_range fs base rid s e = ⟨[]⟩ := by
  have hns : ¬pdLe s e := by
    obtain ⟨sy, sm, sd⟩ := s
    obtain ⟨ey, em, ed⟩ := e
    rw [pdLt_mk] at h
    rw [pdLe_mk]
    omega
  unfold _get_volumes_for_range
  simp only [rangeAux, if_neg hns]

/-- C9 witness: a start one day after the end yields the empty
collection on a file system where every zip exists. -/
theorem C9_witness :
    pdLt (PyDate.mk 2025 10 16) (PyDate.mk 2025 10 17) ∧
    _get_volumes_for_range (fun _ => some []) ["data"] 2
      ⟨2025, 10, 17⟩ ⟨2025, 10, 16⟩ = ⟨[]⟩ :=
  ⟨by decide,
    C9_range_empty (fun _ => some []) ["data"] 2 ⟨2025, 10, 17⟩ ⟨2025, 10, 16⟩ (by decide)⟩

/-- C10: whenever an end date is supplied, a datetime first argument is
rejected with the TypeError before any container is consulted, uniformly
in the file-system state; a range query is accepted exactly when the
first argument is a pure date, in which case the range result is
returned. -/
theorem C10_range_requires_date (fs : List String → Option (List String))
    (base : List String) (rid : ℕ) (t : PyDateTime) (tz : Option ℤ) (s e : PyDate)
    (nearest : Bool) (tol : ℚ) :
    get_vol fs base rid (.dt t tz) (some e) nearest tol =
      .error (.typeError
        "When end_date is provided, first argument must be a date (not datetime). Use datetime.date() or pass a datetime.date object.") ∧
    get_vol fs base rid (.d s) (some e) nearest tol =
      .ok (.list (_get_volumes_for_range fs base rid s e)) :=
  ⟨rfl, rfl⟩

/-- C6: for every single-day query, an empty day scan makes the
dispatcher fail with the not-found error carrying the radar, the queried
date and the expected container path; a non-empty scan returns the whole
day collection. -/
theorem C6_single_day (fs : List String → Option (List String)) (base : List String)
    (rid : ℕ) (day : PyDate) (nearest : Bool) (tol : ℚ) :
    ((_get_volumes_for_date fs base rid day).volumes = [] →
      get_vol fs base rid (.d day) none nearest tol =
        .error (.fileNotFoundError rid day (zip_path base rid day.year day.month day.day))) ∧
    ((_get_volumes_for_date fs base rid day).volumes ≠ [] →
      get_vol fs base rid (.d day) none nearest tol =
        .ok (.list (_get_volumes_for_date fs base rid day))) := by
  constructor
  · intro h
    simp only [get_vol]
    rw [h]
    rfl
  · intro h
    simp only [get_vol]
    rw [isEmpty_false_of_ne h]
    rfl

/-- C6 witness: on a file system with no zip files, the day query fails
with the not-found error naming radar, date and expected path. -/
theorem C6_witness :
    (_get_volumes_for_date (fun _ => none) ["data"] 2 ⟨2025, 10, 20⟩).volumes = [] ∧
    get_vol (fun _ => none) ["data"] 2 (.d ⟨2025, 10, 20⟩) none false 60 =
      .error (.fileNotFoundError 2 ⟨2025, 10, 20⟩ (zip_path ["data"] 2 2025 10 20)) :=
  ⟨by decide,
    (C6_single_day (fun _ => none) ["data"] 2 ⟨2025, 10, 20⟩ false 60).1 (by decide)⟩

/-- C2: a single-instant query whose UTC-normalized instant is exactly at
the start of its day and whose caller did not request nearest mode is
answered exactly as the whole-day query on that day, including its
failure; with nearest mode requested at exact midnight, the dispatcher
instead returns nearest of the normalized instant on that day scan. -/
theorem C2_midnight (fs : List String → Option (List String)) (base : List String)
    (rid : ℕ) (t : PyDateTime) (tz : Option ℤ) (tol : ℚ)
    (h : (ensure_utc t tz).hour = 0 ∧ (ensure_utc t tz).minute = 0 ∧
      (ensure_utc t tz).second = 0 ∧ (ensure_utc t tz).microsecond = 0) :
    get_vol fs base rid (.dt t tz) none false tol =
      get_vol fs base rid (.d (ensure_utc t tz).date) none false tol ∧
    ((_get_volumes_for_date fs base rid (ensure_utc t tz).date).volumes ≠ [] →
      ∃ v, (_get_volumes_for_date fs base rid (ensure_utc t tz).date).nearest
          (ensure_utc t tz) = .ok v ∧
        get_vol fs base rid (.dt t tz) none true tol = .ok (.vol v)) := by
  constructor
  · simp only [get_vol]
    rw [if_pos (⟨h, trivial⟩ :
      ((ensure_utc t tz).hour = 0 ∧ (ensure_utc t tz).minute = 0 ∧
        (ensure_utc t tz).second = 0 ∧ (ensure_utc t tz).microsecond = 0) ∧ True)]
  · intro hne
    obtain ⟨v, hv⟩ := nearest_ok_of_ne _ (ensure_utc t tz) hne
    refine ⟨v, hv, ?_⟩
    simp only [get_vol]
    have hcond : ¬(((ensure_utc t tz).hour = 0 ∧ (ensure_utc t tz).minute = 0 ∧
        (ensure_utc t tz).second = 0 ∧ (ensure_utc t tz).microsecond = 0) ∧ true = false) := by
      simp
    rw [if_neg hcond, isEmpty_false_of_ne hne, hv]
    rfl

/-- Fixture file system with a single day container for radar 2 on
2025-10-16 holding two valid entries and one extraneous entry. -/
def fsW : List String → Option (List String) := fun p =>
  if p = zip_path ["data"] 2 2025 10 16 then
    some ["2_20251016_000000.pvol.h5", "2_20251016_001000.pvol.h5", "junk.txt"]
  else none

/-- C2 witness: the instant 2025-10-16T00:00:00 is midnight after
normalization, and the theorem applies to the fixture day. -/
theorem C2_witness :
    ((ensure_utc ⟨2025, 10, 16, 0, 0, 0, 0⟩ none).hour = 0 ∧
      (ensure_utc ⟨2025, 10, 16, 0, 0, 0, 0⟩ none).minute = 0 ∧
      (ensure_utc ⟨2025, 10, 16, 0, 0, 0, 0⟩ none).second = 0 ∧
      (ensure_utc ⟨2025, 10, 16, 0, 0, 0, 0⟩ none).microsecond = 0) ∧
    (get_vol fsW ["data"] 2 (.dt ⟨2025, 10, 16, 0, 0, 0, 0⟩ none) none false 60 =
      get_vol fsW ["data"] 2 (.d (ensure_utc ⟨2025, 10, 16, 0, 0, 0, 0⟩ none).date)
        none false 60 ∧
    ((_get_volumes_for_date fsW ["data"] 2
        (ensure_utc ⟨2025, 10, 16, 0, 0, 0, 0⟩ none).date).volumes ≠ [] →
      ∃ v, (_get_volumes_for_date fsW ["data"] 2
          (ensure_utc ⟨2025, 10, 16, 0, 0, 0, 0⟩ none).date).nearest
          (ensure_utc ⟨2025, 10, 16, 0, 0, 0, 0⟩ none) = .ok v ∧
        get_vol fsW ["data"] 2 (.dt ⟨2025, 10, 16, 0, 0, 0, 0⟩ none) none true 60 =
          .ok (.vol v))) :=
  ⟨by decide, C2_midnight fsW ["data"] 2 ⟨2025, 10, 16, 0, 0, 0, 0⟩ none 60 (by decide)⟩

/-- C8: a timezone-naive datetime and a timezone-aware datetime with a
non-UTC fixed offset that denote the same physical instant produce the
same dispatcher result for a single-instant query with the same radar,
mode and tolerance: normalization treats the naive instant as UTC and
converts the aware one to UTC, dropping its timezone tag. -/
theorem C8_tz_invariance (fs : List String → Option (List String)) (base : List String)
    (rid : ℕ) (t1 t2 : PyDateTime) (off : ℤ) (nearest : Bool) (tol : ℚ)
    (hval : validDateTime t1) (hoff : off ≠ 0)
    (hsame : dateTimeToMicros t2 - off * 1000000 = dateTimeToMicros t1) :
    get_vol fs base rid (.dt t2 (some off)) none nearest tol =
      get_vol fs base rid (.dt t1 none) none nearest tol := by
  have he := ensure_utc_eq_of_same_instant t1 t2 off hval hsame
  simp only [get_vol]
  rw [he]

/-- Fixture naive instant 2025-10-16T12:00:00 UTC. -/
def t1W : PyDateTime := ⟨2025, 10, 16, 12, 0, 0, 0⟩

/-- Fixture local instant 2025-10-16T22:00:00 at offset UTC+10, the same
physical instant as the naive fixture. -/
def t2W : PyDateTime := ⟨2025, 10, 16, 22, 0, 0, 0⟩

/-- C8 witness: the two fixture instants denote the same physical
instant and the dispatcher treats them identically. -/
theorem C8_witness :
    validDateTime t1W ∧ (36000 : ℤ) ≠ 0 ∧
    dateTimeToMicros t2W - 36000 * 1000000 = dateTimeToMicros t1W ∧
    get_vol (fun _ => none) ["data"] 2 (.dt t2W (some 36000)) none true 60 =
      get_vol (fun _ => none) ["data"] 2 (.dt t1W none) none true 60 :=
  ⟨by decide, by decide, by decide,
    C8_tz_invariance (fun _ => none) ["data"] 2 t1W t2W 36000 true 60
      (by decide) (by decide) (by decide)⟩

/-- C5: for a day-range query with start at most end, the result is the
concatenation, in ascending day order, of the per-day scans of each
calendar day from start to end inclusive (dateRange is the day list the
loop visits, each of its members lies between the bounds and it starts at
the start date); the length is the sum of the per-day scan lengths; a day
whose container is absent contributes zero references; and the function
is total, so an overall empty result is returned without error. -/
theorem C5_range_concat (fs : List String → Option (List String)) (base : List String)
    (rid : ℕ) (s e : PyDate) (h : pdLe s e) :
    (_get_volumes_for_range fs base rid s e).volumes =
      (dateRange s e).flatMap (fun d => (_get_volumes_for_date fs base rid d).volumes) ∧
    (_get_volumes_for_range fs base rid s e).volumes.length =
      ((dateRange s e).map (fun d => (_get_volumes_for_date fs base rid d).volumes.length)).sum ∧
    (∀ d : PyDate, fs (zip_path base rid d.year d.month d.day) = none →
      (_get_volumes_for_date fs base rid d).volumes = []) ∧
    (∀ d ∈ dateRange s e, pdLe s d ∧ pdLe d e) ∧
    s ∈ dateRange s e := by
  have h1 : (_get_volumes_for_range fs base rid s e).volumes =
      (dateRange s e).flatMap (fun d => (_get_volumes_for_date fs base rid d).volumes) :=
    rangeAux_eq_flatMap fs base rid e (rangeFuel s e + 1) s
  refine ⟨h1, ?_, ?_, ?_, ?_⟩
  · rw [h1, List.length_flatMap]
    rfl
  · intro d hfd
    unfold _get_volumes_for_date _list_volumes_in_zip
    rw [hfd]
  · exact fun d hd => daysFromAux_mem_bounds e (rangeFuel s e + 1) s d hd
  · rw [dateRange_loop_eq, if_pos h]
    exact List.mem_cons_self _ _

/-- C5 witness: a two-day range over the fixture file system, where the
first day has a container and the second does not, satisfies the
characterization. -/
theorem C5_witness :
    pdLe (PyDate.mk 2025 10 16) (PyDate.mk 2025 10 17) ∧
    ((_get_volumes_for_range fsW ["data"] 2 ⟨2025, 10, 16⟩ ⟨2025, 10, 17⟩).volumes =
      (dateRange ⟨2025, 10, 16⟩ ⟨2025, 10, 17⟩).flatMap
        (fun d => (_get_volumes_for_date fsW ["data"] 2 d).volumes) ∧
    (_get_volumes_for_range fsW ["data"] 2 ⟨2025, 10, 16⟩ ⟨2025, 10, 17⟩).volumes.length =
      ((dateRange ⟨2025, 10, 16⟩ ⟨2025, 10, 17⟩).map
        (fun d => (_get_volumes_for_date fsW ["data"] 2 d).volumes.length)).sum ∧
    (∀ d : PyDate, fsW (zip_path ["data"] 2 d.year d.month d.day) = none →
      (_get_volumes_for_date fsW ["data"] 2 d).volumes = []) ∧
    (∀ d ∈ dateRange ⟨2025, 10, 16⟩ ⟨2025, 10, 17⟩,
      pdLe ⟨2025, 10, 16⟩ d ∧ pdLe d ⟨2025, 10, 17⟩) ∧
    PyDate.mk 2025 10 16 ∈ dateRange ⟨2025, 10, 16⟩ ⟨2025, 10, 17⟩) :=
  ⟨by decide, C5_range_concat fsW ["data"] 2 ⟨2025, 10, 16⟩ ⟨2025, 10, 17⟩ (by decide)⟩

theorem ne_nil_of_isEmpty_eq_false {α : Type} {l : List α} (h : l.isEmpty = false) :
    l ≠ [] := by
  cases l with
  | nil => exact absurd h (by simp)
  | cons x xs => exact fun hc => List.noConfusion hc

theorem matchVolume_inv {l g1 g2 g3 : List Char}
    (h : matchVolume l = some (g1, g2, g3)) :
    g1 ≠ [] ∧ (∀ c ∈ g1, isDig c = true) ∧
    g2.length = 8 ∧ (∀ c ∈ g2, isDig c = true) ∧
    g3.length = 6 ∧ (∀ c ∈ g3, isDig c = true) := by
  unfold matchVolume at h
  by_cases h0 : (l.takeWhile isDig).isEmpty
  · rw [if_pos h0] at h
    exact absurd h (by simp)
  · rw [if_neg h0] at h
    split at h
    case _ r2 =>
      split_ifs at h with h8
      · split at h
        case _ r4 =>
          split_ifs at h with h6
          · rw [Option.some.injEq, Prod.mk.injEq, Prod.mk.injEq] at h
            obtain ⟨e1, e2, e3⟩ := h
            subst e1 e2 e3
            refine ⟨?_, ?_, h8.1, ?_, h6.1, ?_⟩
            · intro hnil
              rw [hnil] at h0
              exact h0 rfl
            · exact fun c hc => List.mem_takeWhile_imp hc
            · exact fun c hc => (List.all_eq_true.mp h8.2) c hc
            · exact fun c hc => (List.all_eq_true.mp h6.2.1) c hc
        case _ hne =>
          exact absurd h (by simp)
    case _ hne =>
      exact absurd h (by simp)

theorem strptimeVol_ok_inv {d8 t6 : List Char} {ts : PyDateTime}
    (h : strptimeVol d8 t6 = .ok ts) :
    ts = ⟨digitsToNat (d8.take 4), digitsToNat ((d8.drop 4).take 2), digitsToNat (d8.drop 6),
      digitsToNat (t6.take 2), digitsToNat ((t6.drop 2).take 2), digitsToNat (t6.drop 4), 0⟩ := by
  unfold strptimeVol at h
  split_ifs at h with hc
  rw [Except.ok.injEq] at h
  exact h.symm

theorem padDigits_of_len (s : List Char) (w : ℕ) (hlen : s.length = w)
    (hd : ∀ c ∈ s, isDig c = true) : padDigits w (digitsToNat s) = s := by
  rw [← hlen]
  exact padDigits_digitsToNat s hd

/-- C7: every entry name accepted by the volume-name grammar whose radar
id field carries no leading zero and whose timestamp fields form a valid
calendar date and time constructs successfully, and re-rendering the
parsed fields (the radar id as decimal digits, the timestamp as the
eight digit date and six digit time groups) reproduces exactly the digit
substrings of the original name; a name failing the grammar is rejected
with the invalid-format ValueError at direct construction, and a name
matching the grammar whose timestamp fields are out of range is rejected
with the strptime ValueError. This is the amended form of the claim: the
grammar also accepts radar ids with leading zeros and out-of-range
timestamp digit groups, for which the original universal round-trip
statement fails, as the counterexample shows. -/
theorem C7_roundtrip (zp : List String) (name : String) :
    (matchVolume name.data = none →
      LazyVolume.from_filename zp name =
        .error (.valueError ("Invalid volume filename: " ++ name))) ∧
    (∀ g1 g2 g3 : List Char, ∀ e : PyError,
      matchVolume name.data = some (g1, g2, g3) → strptimeVol g2 g3 = .error e →
      LazyVolume.from_filename zp name = .error e) ∧
    (∀ g1 g2 g3 : List Char, ∀ ts : PyDateTime,
      matchVolume name.data = some (g1, g2, g3) →
      (g1.head? = some '0' → g1 = ['0']) →
      strptimeVol g2 g3 = .ok ts →
      LazyVolume.from_filename zp name = .ok ⟨zp, name, digitsToNat g1, ts⟩ ∧
        natDigits (digitsToNat g1) = g1 ∧
        padDigits 4 ts.year ++ padDigits 2 ts.month ++ padDigits 2 ts.day = g2 ∧
        padDigits 2 ts.hour ++ padDigits 2 ts.minute ++ padDigits 2 ts.second = g3) := by
  refine ⟨?_, ?_, ?_⟩
  · intro hm
    simp only [LazyVolume.from_filename, hm]
  · intro g1 g2 g3 e hm hs
    simp only [LazyVolume.from_filename, hm, hs]
  · intro g1 g2 g3 ts hm hz hs
    obtain ⟨h1ne, h1d, h2len, h2d, h3len, h3d⟩ := matchVolume_inv hm
    have hts := strptimeVol_ok_inv hs
    have hcon : LazyVolume.from_filename zp name = .ok ⟨zp, name, digitsToNat g1, ts⟩ := by
      simp only [LazyVolume.from_filename, hm, hs]
    have hp2a : padDigits 4 (digitsToNat (g2.take 4)) = g2.take 4 :=
      padDigits_of_len _ 4 (by rw [List.length_take, h2len]; try omega)
        (fun c hc => h2d c (List.take_subset 4 g2 hc))
    have hp2b : padDigits 2 (digitsToNat ((g2.drop 4).take 2)) = (g2.drop 4).take 2 :=
      padDigits_of_len _ 2 (by rw [List.length_take, List.length_drop, h2len]; try omega)
        (fun c hc => h2d c (List.drop_subset 4 g2 (List.take_subset 2 (g2.drop 4) hc)))
    have hp2c : padDigits 2 (digitsToNat (g2.drop 6)) = g2.drop 6 :=
      padDigits_of_len _ 2 (by rw [List.length_drop, h2len]; try omega)
        (fun c hc => h2d c (List.drop_subset 6 g2 hc))
    have hp3a : padDigits 2 (digitsToNat (g3.take 2)) = g3.take 2 :=
      padDigits_of_len _ 2 (by rw [List.length_take, h3len]; try omega)
        (fun c hc => h3d c (List.take_subset 2 g3 hc))
    have hp3b : padDigits 2 (digitsToNat ((g3.drop 2).take 2)) = (g3.drop 2).take 2 :=
      padDigits_of_len _ 2 (by rw [List.length_take, List.length_drop, h3len]; try omega)
        (fun c hc => h3d c (List.drop_subset 2 g3 (List.take_subset 2 (g3.drop 2) hc)))
    have hp3c : padDigits 2 (digitsToNat (g3.drop 4)) = g3.drop 4 :=
      padDigits_of_len _ 2 (by rw [List.length_drop, h3len]; try omega)
        (fun c hc => h3d c (List.drop_subset 4 g3 hc))
    have hdd2 : (g2.drop 4).drop 2 = g2.drop 6 := by rw [List.drop_drop]
    have hdd3 : (g3.drop 2).drop 2 = g3.drop 4 := by rw [List.drop_drop]
    refine ⟨hcon, natDigits_digitsToNat g1 h1ne h1d hz, ?_, ?_⟩
    · rw [hts]
      show padDigits 4 (digitsToNat (g2.take 4)) ++
          padDigits 2 (digitsToNat ((g2.drop 4).take 2)) ++
          padDigits 2 (digitsToNat (g2.drop 6)) = g2
      rw [hp2a, hp2b, hp2c, List.append_assoc, ← hdd2,
        List.take_append_drop 2 (g2.drop 4), List.take_append_drop 4 g2]
    · rw [hts]
      show padDigits 2 (digitsToNat (g3.take 2)) ++
          padDigits 2 (digitsToNat ((g3.drop 2).take 2)) ++
          padDigits 2 (digitsToNat (g3.drop 4)) = g3
      rw [hp3a, hp3b, hp3c, List.append_assoc, ← hdd3,
        List.take_append_drop 2 (g3.drop 2), List.take_append_drop 2 g3]

/-- C7 witness: a well-formed name with a leading-zero-free radar id and
valid timestamp round-trips exactly. -/
theorem C7_witness :
    matchVolume "2_20251016_123456.pvol.h5".data =
      some (['2'], "20251016".data, "123456".data) ∧
    strptimeVol "20251016".data "123456".data = .ok ⟨2025, 10, 16, 12, 34, 56, 0⟩ ∧
    (LazyVolume.from_filename ["data"] "2_20251016_123456.pvol.h5" =
        .ok ⟨["data"], "2_20251016_123456.pvol.h5", digitsToNat ['2'],
          ⟨2025, 10, 16, 12, 34, 56, 0⟩⟩ ∧
      natDigits (digitsToNat ['2']) = ['2'] ∧
      padDigits 4 2025 ++ padDigits 2 10 ++ padDigits 2 16 = "20251016".data ∧
      padDigits 2 12 ++ padDigits 2 34 ++ padDigits 2 56 = "123456".data) :=
  ⟨by decide, by decide,
    (C7_roundtrip ["data"] "2_20251016_123456.pvol.h5").2.2 ['2'] "20251016".data
      "123456".data ⟨2025, 10, 16, 12, 34, 56, 0⟩ (by decide) (by decide) (by decide)⟩

/-- C7 counterexample: the grammar accepts the radar id 02 with a
leading zero, construction succeeds with radar id two, and re-rendering
the radar id as decimal digits yields the single digit 2, not the digit
substring 02 of the original name; moreover the grammar accepts a name
whose month field is 13, on which direct construction fails rather than
round-tripping. Both refute the claim as stated over all
grammar-accepted names. -/
theorem C7_counterexample :
    matchVolume "02_20251016_123456.pvol.h5".data =
      some (['0', '2'], "20251016".data, "123456".data) ∧
    LazyVolume.from_filename ["data"] "02_20251016_123456.pvol.h5" =
      .ok ⟨["data"], "02_20251016_123456.pvol.h5", 2, ⟨2025, 10, 16, 12, 34, 56, 0⟩⟩ ∧
    natDigits 2 = ['2'] ∧ (['2'] : List Char) ≠ ['0', '2'] ∧
    matchVolume "2_20251301_123456.pvol.h5".data =
      some (['2'], "20251301".data, "123456".data) ∧
    LazyVolume.from_filename ["data"] "2_20251301_123456.pvol.h5" =
      .error (.valueError
        "time data does not match the expected format or is out of range") := by
  refine ⟨?_, ?_, ?_, ?_, ?_, ?_⟩ <;> decide
